import Mathlib

/-!
Verification development for the packet acknowledgment engine of the
`lightyear` repository (`src/lightyear/src/packet/header.rs` and the channel
sender trait in `src/shared/src/channel/senders/mod.rs`).

Machine integers are embedded as `Nat`/`Int` with explicit `% 65536`
(`u16` packet ids) where wrapping matters; the fixed-capacity ring buffer of
`ACK_BITFIELD_SIZE` booleans is embedded as a `List Bool` whose front is the
oldest element, with `ringPush` dropping the front when the buffer is full,
which is the behaviour of `ConstGenericRingBuffer::push`.
-/

/-- `ACK_BITFIELD_SIZE` from header.rs: acks cover the last 32 packet ids
before the last received packet. -/
def ACK_BITFIELD_SIZE : Nat := 32

/-- `MAX_SEND_PACKET_QUEUE_SIZE` from header.rs: we can only buffer up to
this many packets for sending. -/
def MAX_SEND_PACKET_QUEUE_SIZE : Nat := 255

/-- `CLEAR_UNACKED_PACKETS_DELAY` from header.rs, in milliseconds. -/
def CLEAR_UNACKED_PACKETS_DELAY : Int := 5000

/-- Modelled from the spec: the `Sub` impl of `PacketId`
(`src/lightyear/src/packet/packet.rs`) is not under `src/`; spec §4.1 defines
it: `circular_diff(a, b)` is the signed 16-bit value `d` with
`b + d ≡ a (mod 65536)`, normalised to `[-32768, 32767]`. -/
def circular_diff (a b : Nat) : Int :=
  let d := ((a : Int) - (b : Int)) % 65536
  if d < 32768 then d else d - 65536

/-- `ReceiveBuffer` from header.rs: the id of the most recent packet received,
plus a ring buffer of `ACK_BITFIELD_SIZE` booleans tracking receipt of the
ids immediately before it (front of the list = oldest entry). -/
structure ReceiveBuffer where
  last_recv_packet_id : Option Nat
  buffer : List Bool
deriving Repr, DecidableEq

/-- `ConstGenericRingBuffer::push`: append at the back, dropping the oldest
element when the buffer is at capacity `ACK_BITFIELD_SIZE`. -/
def ringPush (l : List Bool) (b : Bool) : List Bool :=
  if l.length < ACK_BITFIELD_SIZE then l ++ [b] else l.tail ++ [b]

/-- The `for _ in 0..(diff.abs() - 1) { buffer.push(false) }` loop of
`recv_packet`: push `false` n times. -/
def pushFalseN (l : List Bool) : Nat → List Bool
  | 0 => l
  | n + 1 => pushFalseN (ringPush l false) n

/-- `ReceiveBuffer::new`: ring buffer filled to capacity with `false`. -/
def ReceiveBuffer.new : ReceiveBuffer :=
  { last_recv_packet_id := none
    buffer := List.replicate ACK_BITFIELD_SIZE false }

/-- `ReceiveBuffer::recv_packet` from header.rs. `get_mut_signed (-diff)`
indexes from the back of the ring buffer (`-1` is the most recently pushed
element), i.e. position `length - diff` from the front. -/
def ReceiveBuffer.recv_packet (s : ReceiveBuffer) (id : Nat) : ReceiveBuffer :=
  match s.last_recv_packet_id with
  | none => { s with last_recv_packet_id := some id }
  | some last =>
    let diff : Int := circular_diff last id
    if diff > (ACK_BITFIELD_SIZE : Int) then s
    else
      let s1 := if diff > 0 then
          { s with buffer := s.buffer.set (s.buffer.length - diff.toNat) true }
        else s
      if diff < 0 then
        let buffer := if diff < -((ACK_BITFIELD_SIZE : Int) + 1) then
            List.replicate ACK_BITFIELD_SIZE false
          else pushFalseN (ringPush s1.buffer true) (diff.natAbs - 1)
        { last_recv_packet_id := some id, buffer := buffer }
      else s1

/-- `ReceiveBuffer::get_bitfield` from header.rs: iterate the ring buffer from
the oldest entry to the newest, with a mask walking from the top bit
(`1 << 31`) down, OR-ing the mask in for every received entry. -/
def ReceiveBuffer.get_bitfield (s : ReceiveBuffer) : Nat :=
  (s.buffer.foldl
    (fun am b => (if b then am.1 ||| am.2 else am.1, am.2 >>> 1))
    (0, 1 <<< 31)).1

/-- Receive a list of packet ids in order (used to state concrete traces). -/
def recvAll (s : ReceiveBuffer) (ids : List Nat) : ReceiveBuffer :=
  ids.foldl ReceiveBuffer.recv_packet s

/-- Modelled from the spec: `PacketType` (`src/lightyear/src/packet/packet_type.rs`)
is not under `src/`; the spec's data model lists packet kinds (Data/Ack/etc.).
The header carries it opaquely. -/
inductive PacketType
  | Data
  | Ack
deriving Repr, DecidableEq

/-- `PacketHeader` from header.rs. `packet_id`, `last_ack_packet_id` are `u16`
values (`Nat < 65536` in well-formed headers), `ack_bitfield` a `u32`,
`tick` a `u16`. -/
structure PacketHeader where
  packet_type : PacketType
  packet_id : Nat
  last_ack_packet_id : Nat
  ack_bitfield : Nat
  tick : Nat
deriving Repr, DecidableEq

/-- `PacketHeader::get_bitfield_bit` from header.rs: value of the i-th bit of
the bitfield, 0-indexed from the right-most bit (which stands for the id one
below `last_ack_packet_id`). -/
def PacketHeader.get_bitfield_bit (h : PacketHeader) (i : Nat) : Bool :=
  h.ack_bitfield &&& (1 <<< i) != 0

/-- Modelled from the spec: `PacketStatsManager`
(`src/lightyear/src/packet/stats_manager.rs`) is not under `src/`; per spec
§7/§9 it accumulates per-connection observability counters (sent, received,
acked, lost). -/
structure PacketStatsManager where
  sent : Nat
  received : Nat
  acked : Nat
  lost : Nat
deriving Repr, DecidableEq

def PacketStatsManager.default : PacketStatsManager :=
  { sent := 0, received := 0, acked := 0, lost := 0 }

def PacketStatsManager.sent_packet (s : PacketStatsManager) : PacketStatsManager :=
  { s with sent := s.sent + 1 }

def PacketStatsManager.received_packet (s : PacketStatsManager) : PacketStatsManager :=
  { s with received := s.received + 1 }

def PacketStatsManager.sent_packet_acked (s : PacketStatsManager) : PacketStatsManager :=
  { s with acked := s.acked + 1 }

def PacketStatsManager.sent_packet_lost (s : PacketStatsManager) : PacketStatsManager :=
  { s with lost := s.lost + 1 }

/-- Modelled from the spec: `PacketStatsManager::update` recomputes rolling
statistics from the counters for the new tick; it does not change the
counters themselves. -/
def PacketStatsManager.stats_update (s : PacketStatsManager) : PacketStatsManager := s

/-- `PacketHeaderManager` from header.rs. The Rust field
`sent_packets_not_acked : HashMap<PacketId, WrappedTime>` is embedded as the
finite key set `sent_ids` together with the value map `sent_time` (only
meaningful on keys). `WrappedTime` is not under `src/` and is modelled from
the spec as externally supplied monotone time in milliseconds (`Int`), whose
subtraction is ordinary integer subtraction. -/
structure PacketHeaderManager where
  next_packet_id : Nat
  sent_ids : Finset Nat
  sent_time : Nat → Int
  stats_manager : PacketStatsManager
  recv_buffer : ReceiveBuffer
  current_time : Int

/-- `PacketHeaderManager::new` from header.rs. -/
def PacketHeaderManager.new : PacketHeaderManager :=
  { next_packet_id := 0
    sent_ids := ∅
    sent_time := fun _ => 0
    stats_manager := PacketStatsManager.default
    recv_buffer := ReceiveBuffer.new
    current_time := 0 }

/-- `PacketHeaderManager::increment_next_packet_id` from header.rs
(`wrapping_add(1)` on the `u16` id). -/
def PacketHeaderManager.increment_next_packet_id
    (m : PacketHeaderManager) : PacketHeaderManager :=
  { m with next_packet_id := (m.next_packet_id + 1) % 65536 }

/-- `PacketHeaderManager::update` from header.rs: refresh the current time,
update the stats, then retain only the unacked entries that are not older
than `CLEAR_UNACKED_PACKETS_DELAY`, counting one lost packet per entry
dropped. -/
def PacketHeaderManager.update (m : PacketHeaderManager) (now : Int) :
    PacketHeaderManager :=
  let m1 := { m with
    current_time := now
    stats_manager := m.stats_manager.stats_update }
  let lostEntries := m1.sent_ids.filter
    (fun id => m1.current_time - m1.sent_time id > CLEAR_UNACKED_PACKETS_DELAY)
  { m1 with
    sent_ids := m1.sent_ids.filter
      (fun id => ¬ (m1.current_time - m1.sent_time id > CLEAR_UNACKED_PACKETS_DELAY))
    stats_manager :=
      { m1.stats_manager with lost := m1.stats_manager.lost + lostEntries.card } }

/-- `PacketHeaderManager::update_sent_packets_not_acked` from header.rs:
remove `packet_id` from the unacked map if present, returning it when it was. -/
def PacketHeaderManager.update_sent_packets_not_acked
    (m : PacketHeaderManager) (packet_id : Nat) :
    Option Nat × PacketHeaderManager :=
  if packet_id ∈ m.sent_ids then
    (some packet_id, { m with sent_ids := m.sent_ids.erase packet_id })
  else
    (none, m)

/-- One confirm step of `process_recv_packet_header`: when
`update_sent_packets_not_acked` reports the id as newly acked, bump the
acked counter and append the id to the result list. -/
def ack_step (st : List Nat × PacketHeaderManager) (packet_id : Nat) :
    List Nat × PacketHeaderManager :=
  match st.2.update_sent_packets_not_acked packet_id with
  | (some p, m') =>
      (st.1 ++ [p], { m' with stats_manager := m'.stats_manager.sent_packet_acked })
  | (none, m') => (st.1, m')

/-- `PacketHeaderManager::process_recv_packet_header` from header.rs: record
the received id in the receive buffer, then confirm `last_ack_packet_id`
unconditionally followed by the ids at distances 1..=32 gated by the
bitfield bits (`wrapping_sub i` on the `u16` id is `+ (65536 - i) % 65536`). -/
def PacketHeaderManager.process_recv_packet_header
    (m : PacketHeaderManager) (header : PacketHeader) :
    List Nat × PacketHeaderManager :=
  let m0 := { m with
    stats_manager := m.stats_manager.received_packet
    recv_buffer := m.recv_buffer.recv_packet header.packet_id }
  let st1 := ack_step ([], m0) header.last_ack_packet_id
  List.foldl
    (fun st i =>
      if header.get_bitfield_bit (i - 1) then
        ack_step st ((header.last_ack_packet_id + (65536 - i)) % 65536)
      else st)
    st1 ((List.range ACK_BITFIELD_SIZE).map (· + 1))

/-- `PacketHeaderManager::prepare_send_packet_header` from header.rs: build a
header from the current `next_packet_id`, the receive buffer's last received
id (or the sentinel `u16::MAX` when none was received yet) and its bitfield;
record the send time of the allocated id and increment the id counter. -/
def PacketHeaderManager.prepare_send_packet_header
    (m : PacketHeaderManager) (packet_type : PacketType) :
    PacketHeader × PacketHeaderManager :=
  let last_ack_packet_id :=
    match m.recv_buffer.last_recv_packet_id with
    | some id => id
    | none => 65535
  let outgoing_header : PacketHeader :=
    { packet_type := packet_type
      packet_id := m.next_packet_id
      last_ack_packet_id := last_ack_packet_id
      ack_bitfield := m.recv_buffer.get_bitfield
      tick := 0 }
  let m1 := { m with
    stats_manager := m.stats_manager.sent_packet
    sent_ids := insert m.next_packet_id m.sent_ids
    sent_time := fun x => if x = m.next_packet_id then m.current_time else m.sent_time x }
  (outgoing_header, m1.increment_next_packet_id)

/-- The packet ids indicated by the bitfield of a header, at circular
distances 1..=32 below `last_ack_packet_id`, in increasing distance order
(vocabulary for the `process_recv_packet_header` characterisation). -/
def bitfield_ack_ids (h : PacketHeader) : List Nat :=
  (((List.range ACK_BITFIELD_SIZE).map (· + 1)).filter
      (fun i => h.get_bitfield_bit (i - 1))).map
    (fun i => (h.last_ack_packet_id + (65536 - i)) % 65536)

/-- Modelled from the spec: the sender implementations
(`src/shared/src/channel/senders/reliable.rs` and `unreliable.rs`) are not
under `src/`. Spec §4.5: for the unordered-unreliable sender, enqueue
"appends to an outbound list"; the `ChannelSend::buffer_send` trait method in
`src/shared/src/channel/senders/mod.rs` returns unit, so no error value can
be surfaced to the caller. Message payloads are opaque and represented by
`Nat`. -/
def buffer_send (send_buffer : List Nat) (message : Nat) : List Nat :=
  send_buffer ++ [message]

set_option maxRecDepth 4000

/-- A fold of gated `ack_step`s over a list of distances equals a fold of
`ack_step` over the gated candidate ids. -/
theorem foldl_ite_filter_map (P : Nat → Bool) (f : Nat → Nat) :
    ∀ (l : List Nat) (st : List Nat × PacketHeaderManager),
      List.foldl (fun st i => if P i then ack_step st (f i) else st) st l
        = List.foldl ack_step st ((l.filter P).map f) := by
  intro l
  induction l with
  | nil => intro st; rfl
  | cons a t ih =>
    intro st
    by_cases hp : P a
    · rw [List.foldl_cons, if_pos hp, List.filter_cons, if_pos hp, List.map_cons,
        List.foldl_cons]
      exact ih (ack_step st (f a))
    · rw [List.foldl_cons, if_neg hp, List.filter_cons, if_neg hp]
      exact ih st

/-- `ack_step` only touches the result list, the unacked key set and the
statistics: the packet-id counter, the current time, the receive buffer and
the send-time map pass through unchanged. -/
theorem ack_step_frame (st : List Nat × PacketHeaderManager) (p : Nat) :
    (ack_step st p).2.next_packet_id = st.2.next_packet_id
    ∧ (ack_step st p).2.current_time = st.2.current_time
    ∧ (ack_step st p).2.recv_buffer = st.2.recv_buffer
    ∧ (ack_step st p).2.sent_time = st.2.sent_time := by
  unfold ack_step PacketHeaderManager.update_sent_packets_not_acked
  by_cases hp : p ∈ st.2.sent_ids <;> simp [hp]

/-- Frame property of the confirm fold: packet-id counter, current time,
receive buffer and send-time map are unchanged. -/
theorem foldl_ack_step_frame :
    ∀ (c : List Nat) (st : List Nat × PacketHeaderManager),
      (List.foldl ack_step st c).2.next_packet_id = st.2.next_packet_id
      ∧ (List.foldl ack_step st c).2.current_time = st.2.current_time
      ∧ (List.foldl ack_step st c).2.recv_buffer = st.2.recv_buffer
      ∧ (List.foldl ack_step st c).2.sent_time = st.2.sent_time := by
  intro c
  induction c with
  | nil => intro st; exact ⟨rfl, rfl, rfl, rfl⟩
  | cons a t ih =>
    intro st
    obtain ⟨h1, h2, h3, h4⟩ := ih (ack_step st a)
    obtain ⟨g1, g2, g3, g4⟩ := ack_step_frame st a
    rw [List.foldl_cons]
    exact ⟨h1.trans g1, h2.trans g2, h3.trans g3, h4.trans g4⟩

/-- Core characterisation of the confirm fold of
`process_recv_packet_header`: over a duplicate-free candidate list it
returns exactly the candidates that are currently in the unacked set, in
candidate order, and removes exactly those ids from the set. -/
theorem foldl_ack_step_spec :
    ∀ (c : List Nat) (acc : List Nat) (m : PacketHeaderManager), c.Nodup →
      (List.foldl ack_step (acc, m) c).1
          = acc ++ c.filter (fun x => decide (x ∈ m.sent_ids))
      ∧ (List.foldl ack_step (acc, m) c).2.sent_ids
          = m.sent_ids.filter (fun x => x ∉ c) := by
  intro c
  induction c with
  | nil =>
    intro acc m _
    refine ⟨by simp, ?_⟩
    simp
  | cons a t ih =>
    intro acc m hnd
    rw [List.nodup_cons] at hnd
    obtain ⟨ha, hnd⟩ := hnd
    rw [List.foldl_cons]
    by_cases hmem : a ∈ m.sent_ids
    · have hstep : ack_step (acc, m) a
          = (acc ++ [a],
             { m with sent_ids := m.sent_ids.erase a,
                      stats_manager := m.stats_manager.sent_packet_acked }) := by
        simp [ack_step, PacketHeaderManager.update_sent_packets_not_acked, hmem]
      rw [hstep]
      obtain ⟨ih1, ih2⟩ := ih (acc ++ [a])
        { m with sent_ids := m.sent_ids.erase a,
                 stats_manager := m.stats_manager.sent_packet_acked } hnd
      constructor
      · have hfe : t.filter (fun x => decide (x ∈ m.sent_ids.erase a))
            = t.filter (fun x => decide (x ∈ m.sent_ids)) := by
          refine List.filter_congr ?_
          intro x hx
          have hxa : x ≠ a := fun hcontra => ha (hcontra ▸ hx)
          simp [Finset.mem_erase, hxa]
        rw [ih1, hfe, List.filter_cons]
        simp [hmem]
      · rw [ih2]
        ext x
        simp only [Finset.mem_filter, Finset.mem_erase, List.mem_cons]
        constructor
        · rintro ⟨⟨hxa, hxs⟩, hxt⟩
          exact ⟨hxs, by tauto⟩
        · rintro ⟨hxs, hxc⟩
          exact ⟨⟨fun hcontra => hxc (Or.inl hcontra), hxs⟩, fun hcontra => hxc (Or.inr hcontra)⟩
    · have hstep : ack_step (acc, m) a = (acc, m) := by
        simp [ack_step, PacketHeaderManager.update_sent_packets_not_acked, hmem]
      rw [hstep]
      obtain ⟨ih1, ih2⟩ := ih acc m hnd
      constructor
      · rw [ih1, List.filter_cons]
        simp [hmem]
      · rw [ih2]
        ext x
        simp only [Finset.mem_filter, List.mem_cons]
        constructor
        · rintro ⟨hxs, hxt⟩
          refine ⟨hxs, ?_⟩
          rintro (rfl | hc)
          · exact hmem hxs
          · exact hxt hc
        · rintro ⟨hxs, hxc⟩
          exact ⟨hxs, fun hcontra => hxc (Or.inr hcontra)⟩

/-- `process_recv_packet_header` is the confirm fold over the candidate list
`last_ack_packet_id :: bitfield_ack_ids`, starting from the state whose
receive buffer has recorded the incoming packet id. -/
theorem process_recv_packet_header_eq (m : PacketHeaderManager) (h : PacketHeader) :
    m.process_recv_packet_header h
      = List.foldl ack_step
          ([], { m with stats_manager := m.stats_manager.received_packet,
                        recv_buffer := m.recv_buffer.recv_packet h.packet_id })
          (h.last_ack_packet_id :: bitfield_ack_ids h) := by
  simp only [PacketHeaderManager.process_recv_packet_header, bitfield_ack_ids]
  rw [foldl_ite_filter_map]
  rw [List.foldl_cons]

/-- The 33 candidate ids checked by `process_recv_packet_header` are pairwise
distinct. -/
theorem candidate_ids_nodup (h : PacketHeader) :
    (h.last_ack_packet_id :: bitfield_ack_ids h).Nodup := by
  have h32 : ACK_BITFIELD_SIZE = 32 := rfl
  have hbound : ∀ i ∈ ((List.range ACK_BITFIELD_SIZE).map (· + 1)).filter
      (fun i => h.get_bitfield_bit (i - 1)), 1 ≤ i ∧ i ≤ 32 := by
    intro i hi
    have hmm := (List.mem_filter.mp hi).1
    obtain ⟨j, hj, rfl⟩ := List.mem_map.mp hmm
    have hjr := List.mem_range.mp hj
    rw [h32] at hjr
    omega
  have hfn : (((List.range ACK_BITFIELD_SIZE).map (· + 1)).filter
      (fun i => h.get_bitfield_bit (i - 1))).Nodup := by
    refine List.Nodup.filter _ ?_
    refine List.Nodup.map ?_ (List.nodup_range ACK_BITFIELD_SIZE)
    intro a b hab
    simpa using hab
  rw [List.nodup_cons]
  constructor
  · intro hmem
    obtain ⟨i, hi, heq⟩ := List.mem_map.mp hmem
    obtain ⟨hi1, hi2⟩ := hbound i hi
    omega
  · refine List.Nodup.map_on ?_ hfn
    intro x hx y hy hxy
    obtain ⟨hx1, hx2⟩ := hbound x hx
    obtain ⟨hy1, hy2⟩ := hbound y hy
    omega

/-- The send-side tracker state and the outgoing header used in the spec's
concrete ack-confirmation example: packet ids 5, 6 and 7 are outstanding, and
the peer's header acknowledges id 7 with bitfield bits set for distances 1
and 2. -/
def exampleSentManager : PacketHeaderManager :=
  { PacketHeaderManager.new with sent_ids := {5, 6, 7} }

def exampleAckHeader : PacketHeader :=
  { packet_type := PacketType.Data, packet_id := 9, last_ack_packet_id := 7,
    ack_bitfield := 0b11, tick := 0 }

/-- C1: for every send-side tracker state and every incoming header,
`process_recv_packet_header` returns exactly the ids that were in the
sent-unacked set and are reported received by the header — the (unconditionally
checked) `last_ack_packet_id` first, followed by the bitfield-indicated ids at
distances 1 to 32 in increasing order — each of which is removed from the set;
the returned list is duplicate-free and an id removed by the call is never in
the resulting set, so an id already confirmed earlier is never returned again.
In particular, with sent unacked ids {5,6,7} and a header with
`last_ack_packet_id = 7` and bitfield bits set for distances 1 and 2, the
result is exactly [7, 6, 5] and all three are removed. -/
theorem process_recv_packet_header_acks (m : PacketHeaderManager) (h : PacketHeader) :
    (m.process_recv_packet_header h).1
        = (h.last_ack_packet_id :: bitfield_ack_ids h).filter
            (fun x => decide (x ∈ m.sent_ids))
    ∧ (m.process_recv_packet_header h).2.sent_ids
        = m.sent_ids.filter (fun x => x ∉ (m.process_recv_packet_header h).1)
    ∧ (m.process_recv_packet_header h).1.Nodup
    ∧ (exampleSentManager.process_recv_packet_header exampleAckHeader).1 = [7, 6, 5]
    ∧ (exampleSentManager.process_recv_packet_header exampleAckHeader).2.sent_ids = ∅ := by
  obtain ⟨h1, h2⟩ := foldl_ack_step_spec (h.last_ack_packet_id :: bitfield_ack_ids h) []
    { m with stats_manager := m.stats_manager.received_packet,
             recv_buffer := m.recv_buffer.recv_packet h.packet_id }
    (candidate_ids_nodup h)
  have hres : (m.process_recv_packet_header h).1
      = (h.last_ack_packet_id :: bitfield_ack_ids h).filter
          (fun x => decide (x ∈ m.sent_ids)) := by
    rw [process_recv_packet_header_eq, h1]
    simp
  refine ⟨hres, ?_, ?_, by decide, by decide⟩
  · rw [hres, process_recv_packet_header_eq, h2]
    ext x
    simp only [Finset.mem_filter, List.mem_filter, decide_eq_true_eq]
    constructor
    · rintro ⟨hxs, hxc⟩
      exact ⟨hxs, fun hcontra => hxc hcontra.1⟩
    · rintro ⟨hxs, hxr⟩
      exact ⟨hxs, fun hcontra => hxr ⟨hcontra, hxs⟩⟩
  · rw [hres]
    exact (candidate_ids_nodup h).filter _

/-- The send-side tracker state and incoming header of the sentinel
counterexample: the packet-id counter has wrapped so that id 65535 (`u16::MAX`,
the "peer has received nothing yet" sentinel) is sitting in the sent-unacked
set, and a header arrives carrying the sentinel with an empty bitfield. -/
def sentinelManager : PacketHeaderManager :=
  { PacketHeaderManager.new with sent_ids := {65535} }

def sentinelHeader : PacketHeader :=
  { packet_type := PacketType.Data, packet_id := 0, last_ack_packet_id := 65535,
    ack_bitfield := 0, tick := 0 }

/-- C4 counterexample: `process_recv_packet_header` checks
`last_ack_packet_id` unconditionally, with no sentinel test, so a header whose
`last_ack_packet_id` is the sentinel 65535 confirms and removes the concrete
packet id 65535 when it is in the sent-unacked set — the sentinel is not
treated as conveying zero ack information. -/
theorem sentinel_ack_counterexample :
    65535 ∈ sentinelManager.sent_ids
    ∧ sentinelHeader.ack_bitfield = 0
    ∧ (sentinelManager.process_recv_packet_header sentinelHeader).1 = [65535]
    ∧ 65535 ∉ (sentinelManager.process_recv_packet_header sentinelHeader).2.sent_ids :=
  ⟨by decide, by decide, by decide, by decide⟩

/-- C4 amended: a header carrying the sentinel `last_ack_packet_id = 65535`
conveys no ack information through that field only as long as packet id 65535
is not itself in the sent-unacked set (which holds until the 16-bit id counter
wraps): in that case the returned ids and the removals are produced solely by
the bitfield bits. The code checks `last_ack_packet_id` unconditionally, so
when 65535 is in the set the sentinel confirms and removes it. -/
theorem sentinel_ack_no_info (m : PacketHeaderManager) (h : PacketHeader)
    (hs : h.last_ack_packet_id = 65535) (hns : 65535 ∉ m.sent_ids) :
    (m.process_recv_packet_header h).1
        = (bitfield_ack_ids h).filter (fun x => decide (x ∈ m.sent_ids))
    ∧ (m.process_recv_packet_header h).2.sent_ids
        = m.sent_ids.filter (fun x => x ∉ bitfield_ack_ids h) := by
  obtain ⟨h1, h2⟩ := foldl_ack_step_spec (h.last_ack_packet_id :: bitfield_ack_ids h) []
    { m with stats_manager := m.stats_manager.received_packet,
             recv_buffer := m.recv_buffer.recv_packet h.packet_id }
    (candidate_ids_nodup h)
  constructor
  · rw [process_recv_packet_header_eq, h1, List.filter_cons]
    have : ¬ (h.last_ack_packet_id ∈ m.sent_ids) := by rw [hs]; exact hns
    simp [this]
  · rw [process_recv_packet_header_eq, h2]
    ext x
    simp only [Finset.mem_filter, List.mem_cons]
    constructor
    · rintro ⟨hxs, hxc⟩
      exact ⟨hxs, fun hcontra => hxc (Or.inr hcontra)⟩
    · rintro ⟨hxs, hxi⟩
      refine ⟨hxs, ?_⟩
      rintro (rfl | hc)
      · rw [hs] at hxs; exact hns hxs
      · exact hxi hc

/-- The concrete state of the C4-amended witness: id 65534 (not the sentinel)
is outstanding, and a sentinel header arrives whose bitfield bit for
distance 1 is set. -/
def sentinelWitnessManager : PacketHeaderManager :=
  { PacketHeaderManager.new with sent_ids := {65534} }

def sentinelWitnessHeader : PacketHeader :=
  { packet_type := PacketType.Data, packet_id := 3, last_ack_packet_id := 65535,
    ack_bitfield := 1, tick := 0 }

theorem sentinel_ack_no_info_witness :
    sentinelWitnessHeader.last_ack_packet_id = 65535
    ∧ 65535 ∉ sentinelWitnessManager.sent_ids
    ∧ ((sentinelWitnessManager.process_recv_packet_header sentinelWitnessHeader).1
          = (bitfield_ack_ids sentinelWitnessHeader).filter
              (fun x => decide (x ∈ sentinelWitnessManager.sent_ids))
       ∧ (sentinelWitnessManager.process_recv_packet_header sentinelWitnessHeader).2.sent_ids
          = sentinelWitnessManager.sent_ids.filter
              (fun x => x ∉ bitfield_ack_ids sentinelWitnessHeader)) :=
  ⟨rfl, by decide,
    sentinel_ack_no_info sentinelWitnessManager sentinelWitnessHeader rfl (by decide)⟩

/-- C5: `prepare_send_packet_header` returns a header whose `packet_id` is the
current `next_packet_id`, whose `last_ack_packet_id` is the receive buffer's
last received id (or the sentinel 65535 when none has been received yet) and
whose `ack_bitfield` is the receive buffer's bitfield; as a side effect it
inserts exactly the allocated id, stamped with the current time, into the
sent-unacked set and increments `next_packet_id` by one modulo 65536. -/
theorem prepare_send_packet_header_spec (m : PacketHeaderManager) (pt : PacketType) :
    (m.prepare_send_packet_header pt).1.packet_id = m.next_packet_id
    ∧ (m.prepare_send_packet_header pt).1.last_ack_packet_id
        = m.recv_buffer.last_recv_packet_id.getD 65535
    ∧ (m.prepare_send_packet_header pt).1.ack_bitfield = m.recv_buffer.get_bitfield
    ∧ (m.prepare_send_packet_header pt).1.packet_type = pt
    ∧ (m.prepare_send_packet_header pt).2.sent_ids = insert m.next_packet_id m.sent_ids
    ∧ (m.prepare_send_packet_header pt).2.sent_time
        = (fun x => if x = m.next_packet_id then m.current_time else m.sent_time x)
    ∧ (m.prepare_send_packet_header pt).2.next_packet_id = (m.next_packet_id + 1) % 65536 := by
  refine ⟨rfl, ?_, rfl, rfl, rfl, rfl, rfl⟩
  simp only [PacketHeaderManager.prepare_send_packet_header]
  cases hl : m.recv_buffer.last_recv_packet_id <;> simp [hl]

/-- C10: `process_recv_packet_header` leaves `next_packet_id` and
`current_time` (and the send-time map) unchanged, and
`prepare_send_packet_header` leaves the receive buffer entirely unchanged. -/
theorem process_prepare_frame (m : PacketHeaderManager) (h : PacketHeader)
    (pt : PacketType) :
    (m.process_recv_packet_header h).2.next_packet_id = m.next_packet_id
    ∧ (m.process_recv_packet_header h).2.current_time = m.current_time
    ∧ (m.process_recv_packet_header h).2.sent_time = m.sent_time
    ∧ (m.prepare_send_packet_header pt).2.recv_buffer = m.recv_buffer := by
  obtain ⟨h1, h2, _, h4⟩ := foldl_ack_step_frame
    (h.last_ack_packet_id :: bitfield_ack_ids h)
    ([], { m with stats_manager := m.stats_manager.received_packet,
                  recv_buffer := m.recv_buffer.recv_packet h.packet_id })
  rw [process_recv_packet_header_eq]
  exact ⟨h1, h2, h4, rfl⟩

/-- C6: the periodic `update` removes from the sent-unacked set exactly the
entries whose age `now - send_time` exceeds `CLEAR_UNACKED_PACKETS_DELAY`
(5000 ms), increments the loss counter once per removed entry, and leaves
every younger entry (and its recorded send time) in place. -/
theorem update_sweep_expired (m : PacketHeaderManager) (now : Int) :
    (m.update now).sent_ids
        = m.sent_ids \ m.sent_ids.filter
            (fun id => now - m.sent_time id > CLEAR_UNACKED_PACKETS_DELAY)
    ∧ (m.update now).stats_manager.lost
        = m.stats_manager.lost
          + (m.sent_ids.filter
              (fun id => now - m.sent_time id > CLEAR_UNACKED_PACKETS_DELAY)).card
    ∧ (m.update now).sent_time = m.sent_time
    ∧ (m.update now).current_time = now := by
  refine ⟨?_, rfl, rfl, rfl⟩
  ext x
  simp only [PacketHeaderManager.update, Finset.mem_filter, Finset.mem_sdiff]
  tauto

/-- C2: starting from an empty `ReceiveBuffer`, receiving ids 0, 1, 3, 6 in
order yields bitfields 0, 0b1, 0b0000_0110, 0b0011_0100 with
`last_recv_packet_id = 6`; then receiving id 2 (in the past, within the
window) leaves `last_recv_packet_id` at 6 and updates the bitfield to
0b0011_1100. -/
theorem recv_buffer_trace :
    (recvAll ReceiveBuffer.new [0]).get_bitfield = 0
    ∧ (recvAll ReceiveBuffer.new [0]).last_recv_packet_id = some 0
    ∧ (recvAll ReceiveBuffer.new [0, 1]).get_bitfield = 0b1
    ∧ (recvAll ReceiveBuffer.new [0, 1, 3]).get_bitfield = 0b00000110
    ∧ (recvAll ReceiveBuffer.new [0, 1, 3, 6]).get_bitfield = 0b00110100
    ∧ (recvAll ReceiveBuffer.new [0, 1, 3, 6]).last_recv_packet_id = some 6
    ∧ (recvAll ReceiveBuffer.new [0, 1, 3, 6, 2]).last_recv_packet_id = some 6
    ∧ (recvAll ReceiveBuffer.new [0, 1, 3, 6, 2]).get_bitfield = 0b00111100 :=
  ⟨by decide, by decide, by decide, by decide, by decide, by decide, by decide, by decide⟩

/-- `get_bitfield` of an all-false ring buffer is 0, whatever the last
received id is. -/
theorem get_bitfield_replicate_false (o : Option Nat) :
    ReceiveBuffer.get_bitfield
      { last_recv_packet_id := o, buffer := List.replicate ACK_BITFIELD_SIZE false } = 0 := by
  rfl

/-- C3: on a buffer with some `last_recv_packet_id`, receiving an id at
circular distance more than `ACK_BITFIELD_SIZE` (32) behind, or an id equal
to the last received one, leaves the state entirely unchanged; receiving an
id more than `ACK_BITFIELD_SIZE + 1` (33) ahead resets the ring buffer to
all-false (bitfield 0) and moves `last_recv_packet_id` to the new id. -/
theorem recv_packet_window_cases (s : ReceiveBuffer) (last id1 id2 : Nat)
    (hlast : s.last_recv_packet_id = some last)
    (hstale : (ACK_BITFIELD_SIZE : Int) < circular_diff last id1)
    (hfar : circular_diff last id2 < -((ACK_BITFIELD_SIZE : Int) + 1)) :
    s.recv_packet id1 = s
    ∧ s.recv_packet last = s
    ∧ (s.recv_packet id2).last_recv_packet_id = some id2
    ∧ (s.recv_packet id2).buffer = List.replicate ACK_BITFIELD_SIZE false
    ∧ (s.recv_packet id2).get_bitfield = 0 := by
  have hA : (ACK_BITFIELD_SIZE : Int) = 32 := rfl
  have hself : circular_diff last last = 0 := by simp [circular_diff]
  have hn32 : ¬ (circular_diff last id2 > (ACK_BITFIELD_SIZE : Int)) := by omega
  have hn0 : ¬ (circular_diff last id2 > 0) := by omega
  have hlt0 : circular_diff last id2 < 0 := by omega
  refine ⟨?_, ?_, ?_, ?_, ?_⟩
  · simp only [ReceiveBuffer.recv_packet, hlast]
    rw [if_pos hstale]
  · simp [ReceiveBuffer.recv_packet, hlast, hself]
  · simp only [ReceiveBuffer.recv_packet, hlast, if_neg hn32, if_neg hn0, if_pos hlt0,
      if_pos hfar]
  · simp only [ReceiveBuffer.recv_packet, hlast, if_neg hn32, if_neg hn0, if_pos hlt0,
      if_pos hfar]
  · simp only [ReceiveBuffer.recv_packet, hlast, if_neg hn32, if_neg hn0, if_pos hlt0,
      if_pos hfar]
    exact get_bitfield_replicate_false (some id2)

/-- The concrete receive buffer of the C3 witness: last received id 82,
window empty. -/
def staleBuffer : ReceiveBuffer :=
  { last_recv_packet_id := some 82, buffer := List.replicate ACK_BITFIELD_SIZE false }

theorem recv_packet_window_cases_witness :
    staleBuffer.last_recv_packet_id = some 82
    ∧ (ACK_BITFIELD_SIZE : Int) < circular_diff 82 49
    ∧ circular_diff 82 120 < -((ACK_BITFIELD_SIZE : Int) + 1)
    ∧ (staleBuffer.recv_packet 49 = staleBuffer
       ∧ staleBuffer.recv_packet 82 = staleBuffer
       ∧ (staleBuffer.recv_packet 120).last_recv_packet_id = some 120
       ∧ (staleBuffer.recv_packet 120).buffer = List.replicate ACK_BITFIELD_SIZE false
       ∧ (staleBuffer.recv_packet 120).get_bitfield = 0) :=
  ⟨rfl, by decide, by decide,
    recv_packet_window_cases staleBuffer 82 49 120 rfl (by decide) (by decide)⟩

/-- C7: the circular difference round-trips: for any `u16` id `a` and any
`k` in `[-32768, 32767]`, `circular_diff (a + k, a) = k`, where `a + k` is
taken modulo 65536. -/
theorem circular_diff_round_trip (a : Nat) (k : Int) (ha : a < 65536)
    (hk1 : -32768 ≤ k) (hk2 : k ≤ 32767) :
    circular_diff (((a : Int) + k) % 65536).toNat a = k := by
  simp only [circular_diff]
  rw [Int.toNat_of_nonneg (Int.emod_nonneg _ (by norm_num))]
  split <;> omega

theorem circular_diff_round_trip_witness :
    (40 : Nat) < 65536
    ∧ (-32768 : Int) ≤ (-50 : Int)
    ∧ ((-50 : Int) ≤ 32767)
    ∧ circular_diff ((((40 : Nat) : Int) + (-50 : Int)) % 65536).toNat 40 = (-50 : Int) :=
  ⟨by decide, by decide, by decide,
    circular_diff_round_trip 40 (-50) (by decide) (by decide) (by decide)⟩

/-- C8 counterexample: a `buffer_send` on a queue already holding
`MAX_SEND_PACKET_QUEUE_SIZE` (255) messages is not rejected: the message is
appended (queue grows to 256) and no error is surfaced — the
`ChannelSend::buffer_send` trait method returns unit and the constant is
referenced only by commented-out code. -/
theorem buffer_send_overflow_accepted :
    (buffer_send (List.replicate MAX_SEND_PACKET_QUEUE_SIZE 0) 1).length
        = MAX_SEND_PACKET_QUEUE_SIZE + 1
    ∧ (buffer_send (List.replicate MAX_SEND_PACKET_QUEUE_SIZE 0) 1).getLast? = some 1 := by
  constructor
  · simp [buffer_send]
  · simp [buffer_send]

/-- C8 amended: `buffer_send` unconditionally queues the message — on a queue
already at the declared maximum depth (`MAX_SEND_PACKET_QUEUE_SIZE` = 255) the
message is still appended at the back and the queue grows past the bound; no
rejection or error reaches the caller. -/
theorem buffer_send_unbounded (q : List Nat) (msg : Nat)
    (hfull : q.length = MAX_SEND_PACKET_QUEUE_SIZE) :
    (buffer_send q msg).length = MAX_SEND_PACKET_QUEUE_SIZE + 1
    ∧ (buffer_send q msg).getLast? = some msg := by
  constructor
  · simp [buffer_send, hfull]
  · simp [buffer_send]

theorem buffer_send_unbounded_witness :
    (List.replicate MAX_SEND_PACKET_QUEUE_SIZE 7).length = MAX_SEND_PACKET_QUEUE_SIZE
    ∧ ((buffer_send (List.replicate MAX_SEND_PACKET_QUEUE_SIZE 7) 9).length
          = MAX_SEND_PACKET_QUEUE_SIZE + 1
       ∧ (buffer_send (List.replicate MAX_SEND_PACKET_QUEUE_SIZE 7) 9).getLast? = some 9) :=
  ⟨by simp, buffer_send_unbounded (List.replicate MAX_SEND_PACKET_QUEUE_SIZE 7) 9 (by simp)⟩

/-- Receive-buffer states reachable from `ReceiveBuffer::new` by any sequence
of `recv_packet` calls. -/
inductive ReachableRecvBuffer : ReceiveBuffer → Prop
  | base : ReachableRecvBuffer ReceiveBuffer.new
  | step (s : ReceiveBuffer) (id : Nat) :
      ReachableRecvBuffer s → ReachableRecvBuffer (s.recv_packet id)

theorem ringPush_length (l : List Bool) (b : Bool) (hl : l.length = ACK_BITFIELD_SIZE) :
    (ringPush l b).length = ACK_BITFIELD_SIZE := by
  have hA : ACK_BITFIELD_SIZE = 32 := rfl
  simp only [ringPush, hl, hA]
  norm_num
  omega

theorem pushFalseN_length :
    ∀ (n : Nat) (l : List Bool), l.length = ACK_BITFIELD_SIZE →
      (pushFalseN l n).length = ACK_BITFIELD_SIZE := by
  intro n
  induction n with
  | zero => intro l hl; exact hl
  | succ k ih => intro l hl; exact ih (ringPush l false) (ringPush_length l false hl)

/-- Every branch of `recv_packet` keeps the ring buffer at exactly
`ACK_BITFIELD_SIZE` entries. -/
theorem recv_packet_buffer_length (s : ReceiveBuffer) (id : Nat)
    (hl : s.buffer.length = ACK_BITFIELD_SIZE) :
    (s.recv_packet id).buffer.length = ACK_BITFIELD_SIZE := by
  rcases s with ⟨lrp, buf⟩
  cases lrp with
  | none => simpa [ReceiveBuffer.recv_packet] using hl
  | some last =>
    simp only at hl
    simp only [ReceiveBuffer.recv_packet]
    by_cases h32 : circular_diff last id > (ACK_BITFIELD_SIZE : Int)
    · rw [if_pos h32]
      exact hl
    · rw [if_neg h32]
      by_cases hpos : circular_diff last id > 0
      · rw [if_pos hpos]
        by_cases hneg : circular_diff last id < 0
        · omega
        · rw [if_neg hneg]
          simpa using hl
      · rw [if_neg hpos]
        by_cases hneg : circular_diff last id < 0
        · rw [if_pos hneg]
          by_cases hfar : circular_diff last id < -((ACK_BITFIELD_SIZE : Int) + 1)
          · rw [if_pos hfar]
            simp
          · rw [if_neg hfar]
            exact pushFalseN_length _ _ (ringPush_length _ _ hl)
        · rw [if_neg hneg]
          exact hl

/-- C9: every receive buffer reachable from `ReceiveBuffer::new` by
`recv_packet` calls has a ring buffer of exactly `ACK_BITFIELD_SIZE` (32)
entries — the buffer is always full — so the back-indexed access performed
for a received id at circular distance `d` behind `last_recv_packet_id`,
`1 ≤ d ≤ 32`, succeeds and the `expect("ring buffer should be full")` panic
branch is unreachable. -/
theorem recv_buffer_always_full (s : ReceiveBuffer) (d : Nat)
    (hreach : ReachableRecvBuffer s) (hd1 : 1 ≤ d) (hd2 : d ≤ ACK_BITFIELD_SIZE) :
    s.buffer.length = ACK_BITFIELD_SIZE
    ∧ (s.buffer.get? (s.buffer.length - d)).isSome = true := by
  have hlen : s.buffer.length = ACK_BITFIELD_SIZE := by
    induction hreach with
    | base => simp [ReceiveBuffer.new]
    | step s' id' _ ih => exact recv_packet_buffer_length s' id' ih
  refine ⟨hlen, ?_⟩
  have hA : ACK_BITFIELD_SIZE = 32 := rfl
  have hidx : s.buffer.length - d < s.buffer.length := by omega
  rw [List.get?_eq_get hidx]
  rfl

theorem recv_buffer_always_full_witness :
    (1 : Nat) ≤ 1
    ∧ (1 : Nat) ≤ ACK_BITFIELD_SIZE
    ∧ (ReceiveBuffer.new.buffer.length = ACK_BITFIELD_SIZE
       ∧ (ReceiveBuffer.new.buffer.get? (ReceiveBuffer.new.buffer.length - 1)).isSome
           = true) :=
  ⟨by decide, by decide,
    recv_buffer_always_full ReceiveBuffer.new 1 ReachableRecvBuffer.base (by decide)
      (by decide)⟩
